import Mathlib

/-!
Shallow embedding of the header-transformation, cookie-merge and
redirect-resolution core of a Next.js HTTP proxy repository (three source
files: `middleware.js`, `app/[...path]/route.js`, `app/[...path]/s.js`;
`route.js` contains two route handlers, a "turnitin" one and a "chatgpt"
one).

Modelling conventions:
- JS strings are modelled as Lean `String` (one `Char` per code unit of the
  header and cookie data handled here, which is ASCII in every relevant
  path, so character counts, UTF-16 code-unit counts and byte counts agree).
- The WHATWG `Headers` object is modelled as an association list whose keys
  are stored lower-cased; `Headers` lower-cases names on every operation,
  and the JS sources additionally call `.toLowerCase()` before writing, which
  the embedding mirrors exactly at the call sites that do so.
- The `fetch` transport is modelled as an oracle indexed by the number of
  outbound calls already issued during the exchange; fallible fetches
  (`try`/`catch` in the sources) use an `Except String` oracle.
-/

abbrev HeaderList := List (String × String)

/-- Model of `headers.get(name)`: the first binding for the (lower-cased)
name, `none` when absent (JS returns `null`). -/
def hget : HeaderList → String → Option String
  | [], _ => none
  | p :: rest, k => if p.1 = k then some p.2 else hget rest k

/-- Model of `headers.set(name, value)`: replace the value of an existing
binding in place, otherwise append a new binding at the end. -/
def hset : HeaderList → String → String → HeaderList
  | [], k, v => [(k, v)]
  | p :: rest, k, v => if p.1 = k then (k, v) :: rest else p :: hset rest k v

/-- Model of `headers.delete(name)`. -/
def hdel (hs : HeaderList) (k : String) : HeaderList :=
  hs.filter (fun p => p.1 != k)

/-- JS truthy-or-default on a nullable string: `x || d` (both `null` and the
empty string fall back to the default). -/
def orElseStr (o : Option String) (d : String) : String :=
  match o with
  | some v => if v = "" then d else v
  | none => d

/-- Model of JS `s.slice(0, n)` for `0 ≤ n`. -/
def strTake (s : String) (n : Nat) : String :=
  ⟨s.data.take n⟩

/-! The remaining string primitives are defined by structural recursion on
the underlying character list (the kernel can evaluate them on concrete
inputs, unlike the position-based core `String` functions); each models the
JS string method named in its comment. -/

/-- JS `s.split(sep)` for a one-character separator: always returns at least
one (possibly empty) piece. -/
def splitCharList (sep : Char) : List Char → List (List Char)
  | [] => [[]]
  | c :: rest =>
    match splitCharList sep rest with
    | [] => [[c]]
    | seg :: segs =>
      if c = sep then [] :: seg :: segs else (c :: seg) :: segs

def strSplitChar (s : String) (sep : Char) : List String :=
  (splitCharList sep s.data).map (fun l => ⟨l⟩)

/-- JS `s.trim()`. -/
def trimChars (l : List Char) : List Char :=
  ((l.dropWhile Char.isWhitespace).reverse.dropWhile Char.isWhitespace).reverse

def strTrim (s : String) : String :=
  ⟨trimChars s.data⟩

/-- JS `s.toLowerCase()` (also the normalization `Headers` applies to every
name). -/
def lowerStr (s : String) : String :=
  ⟨s.data.map Char.toLower⟩

/-- JS `s.startsWith(p)`. -/
def strIsPrefix (p s : String) : Bool :=
  p.data.isPrefixOf s.data

/-- JS `s.endsWith(p)`. -/
def strEndsWith (s p : String) : Bool :=
  p.data.reverse.isPrefixOf s.data.reverse

/-- JS `s.slice(n)`. -/
def strDrop (s : String) (n : Nat) : String :=
  ⟨s.data.drop n⟩

def listContainsSub (needle : List Char) : List Char → Bool
  | [] => needle.isEmpty
  | c :: rest => needle.isPrefixOf (c :: rest) || listContainsSub needle rest

/-- JS `s.includes(sub)`. -/
def containsSubstr (s sub : String) : Bool :=
  listContainsSub sub.data s.data

/-- `pieces.join(sep)`. -/
def strJoin (sep : String) : List String → String
  | [] => ""
  | [s] => s
  | s :: rest => s ++ sep ++ strJoin sep rest

/-- Split a cookie segment at the first `=`: model of `kv.indexOf("=")`
followed by `kv.slice(0, eq)` and `kv.slice(eq + 1)`; `none` when there is
no `=` (JS index `-1`, `continue`). -/
def splitFirstEq (kv : String) : Option (String × String) :=
  match kv.data.findIdx? (fun c => c = '=') with
  | none => none
  | some i => some (⟨kv.data.take i⟩, ⟨kv.data.drop (i + 1)⟩)

/-- Model of the analytics-denylist regexp
`/^(_ga|_gid|_gcl_au|__utm|_hj|apt\.)/i.test(name)`: case-insensitive
prefix match. -/
def isTracking (name : String) : Bool :=
  ["_ga", "_gid", "_gcl_au", "__utm", "_hj", "apt."].any
    (fun p => strIsPrefix p (lowerStr name))

/-- One iteration of the inner loop of `mergeCookies` (identical in
`route.js` and `s.js`): trim the segment, skip it when empty, split at the
first `=` (skip when absent), trim name and value, skip empty names and
analytics names. -/
def parseSeg (part : String) : Option (String × String) :=
  let kv := strTrim part
  if kv = "" then none
  else
    match splitFirstEq kv with
    | none => none
    | some nv =>
      let name := strTrim nv.1
      if name = "" then none
      else if isTracking name then none
      else some (name, strTrim nv.2)

/-- All (name, value) pairs contributed by one raw cookie string. -/
def parsePairs (s : String) : List (String × String) :=
  (strSplitChar s ';').filterMap parseSeg

/-- JS `Map.prototype.set` has exactly the association-list semantics of
`hset`: overwrite the value in place (keeping the first-insertion position
of the name) or append a new entry at the end. -/
abbrev mapSet : List (String × String) → String → String → List (String × String) := hset

/-- The name→value map built by `mergeCookies` over the input sequence. -/
def cookieJarPairs (cookieStrings : List String) : List (String × String) :=
  cookieStrings.foldl
    (fun m s => (parsePairs s).foldl (fun m p => mapSet m p.1 p.2) m) []

/-- The serialized (pre-cap) form: entries as `name=value` joined by ";". -/
def mergeSerial (cookieStrings : List String) : String :=
  strJoin "; "
    ((cookieJarPairs cookieStrings).map (fun p => p.1 ++ "=" ++ p.2))

/-- `mergeCookies(cookieStrings, maxLen)` from `route.js` / `s.js`
(identical in both files; the source's default for `maxLen` is 4096). -/
def mergeCookies (cookieStrings : List String) (maxLen : Nat) : String :=
  let merged := mergeSerial cookieStrings
  if merged.length > maxLen then strTake merged maxLen else merged

/-- Modelled from the claim wording for the Cookie-Merge function (used only
for comparison with the implementation): split each segment at the first `=`
with surrounding whitespace trimmed, discard segments without `=`, discard
names matching the tracking denylist. Note the claim states no rule that
would discard a pair whose (trimmed) name is empty. -/
def claimParseSeg (part : String) : Option (String × String) :=
  match splitFirstEq (strTrim part) with
  | none => none
  | some nv =>
    let name := strTrim nv.1
    if isTracking name then none else some (name, strTrim nv.2)

/-- `claimParseSeg` amended minimally: additionally discard segments whose
trimmed name is empty (this is what the implementation does). -/
def claimParseSegAmd (part : String) : Option (String × String) :=
  match splitFirstEq (strTrim part) with
  | none => none
  | some nv =>
    let name := strTrim nv.1
    if name = "" then none
    else if isTracking name then none
    else some (name, strTrim nv.2)

/-- Name→value insertion exactly as the claim words it: a later occurrence
of the same name overwrites an earlier one, while the first-insertion
position of the name is preserved; new names go to the end. -/
def specInsert (m : List (String × String)) (k v : String) :
    List (String × String) :=
  if k ∈ m.map (fun p => p.1) then
    m.map (fun p => if p.1 = k then (p.1, v) else p)
  else m ++ [(k, v)]

/-- The mapping described by the claim: all segments of all strings in
sequence order, inserted by `specInsert`. -/
def jarOfClaim (parse : String → Option (String × String))
    (css : List String) : List (String × String) :=
  (css.foldl (fun acc s => acc ++ (strSplitChar s ';').filterMap parse) []).foldl
    (fun m p => specInsert m p.1 p.2) []

/-- The Cookie-Merge output exactly as claim C2 describes it. -/
def mergeCookiesClaim (css : List String) : String :=
  strJoin "; "
    ((jarOfClaim claimParseSeg css).map (fun p => p.1 ++ "=" ++ p.2))

/-- The Cookie-Merge output under the amended description (empty names also
discarded). -/
def mergeCookiesAmd (css : List String) : String :=
  strJoin "; "
    ((jarOfClaim claimParseSegAmd css).map (fun p => p.1 ++ "=" ++ p.2))

/-- The length cap applied by `mergeCookies` after serialization. -/
def capAt (maxLen : Nat) (s : String) : String :=
  if s.length > maxLen then strTake s maxLen else s

/-! ## URL model -/

structure Url where
  scheme : String
  host : String
  path : String
  query : String
deriving Repr, DecidableEq

def urlOrigin (u : Url) : String := u.scheme ++ "://" ++ u.host

def urlToString (u : Url) : String := urlOrigin u ++ u.path ++ u.query

/-- Split `s` at the first character satisfying `p` (kept in the second
part). -/
def breakAt (s : String) (p : Char → Bool) : String × String :=
  (⟨s.data.takeWhile (fun c => !p c)⟩, ⟨s.data.dropWhile (fun c => !p c)⟩)

def parseAfterScheme (scheme rest : String) : Option Url :=
  let hp := breakAt rest (fun c => c = '/' || c = '?')
  if hp.1 = "" then none
  else
    let pq :=
      if hp.2 = "" then ("/", "")
      else if strIsPrefix "?" hp.2 then ("/", hp.2)
      else breakAt hp.2 (fun c => c = '?')
    some ⟨scheme, hp.1, pq.1, pq.2⟩

/-- Parse an absolute http/https URL into origin, path and query. Fragments,
userinfo and a distinguished port are not modelled (no claim depends on
them; `s.js` strips userinfo and port before fetching). -/
def parseUrl (s : String) : Option Url :=
  if strIsPrefix "https://" s then parseAfterScheme "https" (strDrop s 8)
  else if strIsPrefix "http://" s then parseAfterScheme "http" (strDrop s 7)
  else none

/-- The directory part of a path: everything up to and including the last
`/`. -/
def dirPart (path : String) : String :=
  ⟨(path.data.reverse.dropWhile (fun c => c ≠ '/')).reverse⟩

/-- Model of `new URL(loc, current).toString()` as used by `fetchFollow`:
absolute http(s) locations win outright; otherwise protocol-relative,
root-relative, query-only and last-segment-relative locations are resolved
against `current`. Dot-segment normalization and fragments are not modelled
(no claim depends on them), and the fallback cases for an unparsable base
are unreachable in the embedded call sites. -/
def resolveUrl (loc current : String) : String :=
  match parseUrl loc with
  | some u => urlToString u
  | none =>
    match parseUrl current with
    | none => loc
    | some b =>
      if strIsPrefix "//" loc then
        match parseAfterScheme b.scheme (strDrop loc 2) with
        | some u => urlToString u
        | none => loc
      else if strIsPrefix "/" loc then
        let pq := breakAt loc (fun c => c = '?')
        urlToString ⟨b.scheme, b.host, pq.1, pq.2⟩
      else if strIsPrefix "?" loc then
        urlToString ⟨b.scheme, b.host, b.path, loc⟩
      else
        let pq := breakAt (dirPart b.path ++ loc) (fun c => c = '?')
        urlToString ⟨b.scheme, b.host, pq.1, pq.2⟩

/-! ## Requests, responses, transforms -/

/-- A fetch/Response value: status, (lower-cased) header list, body text and
the `Set-Cookie` values reported by `getSetCookie()` (kept apart because
they retain multiplicity). -/
structure JsResponse where
  status : Nat
  headers : HeaderList
  body : String
  setCookies : List String
deriving Repr, DecidableEq

structure JsRequest where
  method : String
  url : Url
  headers : HeaderList
deriving Repr, DecidableEq

def hopByHopList : List String :=
  ["connection", "keep-alive", "proxy-authenticate", "proxy-authorization",
   "te", "trailer", "transfer-encoding", "upgrade"]

def defaultUA : String :=
  "Mozilla/5.0 (Windows NT 10.0; Win64; x64) AppleWebKit/537.36 (KHTML, like Gecko) Chrome/124.0 Safari/537.36"

def turnitinHost : String := "ev.turnitin.com"

/-- One iteration of `req.headers.forEach` inside `copyRequestHeaders`
(`middleware.js` and the chatgpt half of `route.js`): lower-case the name,
skip hop-by-hop names, `host` and `content-length`, otherwise `set`. -/
def reqCopyStep (out : HeaderList) (p : String × String) : HeaderList :=
  let k := lowerStr p.1
  if k ∈ hopByHopList then out
  else if k = "host" then out
  else if k = "content-length" then out
  else hset out k p.2

/-- `copyRequestHeaders(req, override)` with the injected-cookie
configuration string as a parameter: copy the filtered inbound headers, set
every override entry (lower-cased), then either set the `cookie` header to
the injected string or delete it. -/
def copyRequestHeaders (req override : HeaderList) (inject : String) :
    HeaderList :=
  let copied := req.foldl reqCopyStep []
  let withOv := override.foldl (fun o p => hset o (lowerStr p.1) p.2) copied
  if inject = "" then hdel withOv "cookie" else hset withOv "cookie" inject

/-- The `{...spoof, ...override}` entries of `middleware.js` at its only
call site (`override = {}`): spoofed origin and referer of the chatgpt
upstream and the hard-coded default user-agent. -/
def mwSpoof : HeaderList :=
  [("origin", "https://chatgpt.com"),
   ("referer", "https://chatgpt.com/"),
   ("user-agent", defaultUA)]

/-- The spoof override of the chatgpt half of `route.js` (no user-agent
entry there). -/
def routeBSpoof : HeaderList :=
  [("origin", "https://chatgpt.com"),
   ("referer", "https://chatgpt.com/")]

/-- One iteration of `src.headers.forEach` inside `copyResponseHeaders`:
skip hop-by-hop names and `content-length`, otherwise `set`. -/
def respCopyStep (out : HeaderList) (p : String × String) : HeaderList :=
  let k := lowerStr p.1
  if k ∈ hopByHopList then out
  else if k = "content-length" then out
  else hset out k p.2

/-- `copyResponseHeaders(src, extra)` (`middleware.js` and the chatgpt half
of `route.js`): copy the filtered upstream headers, set the extras
(lower-cased), delete `set-cookie`. -/
def copyResponseHeaders (src extra : HeaderList) : HeaderList :=
  let out := src.foldl respCopyStep []
  let withEx := extra.foldl (fun o p => hset o (lowerStr p.1) p.2) out
  hdel withEx "set-cookie"

/-- The response HeaderSet `middleware.js` hands back to the caller: the
copied upstream headers with cache-control default, CORS extras and the
diagnostic header, then the SSE override forcing `cache-control: no-cache`
when the upstream content-type includes `text/event-stream`. -/
def mwResponseHeaders (reqHeaders : HeaderList) (upstream : JsResponse) :
    HeaderList :=
  let extras : HeaderList :=
    [("cache-control", orElseStr (hget upstream.headers "cache-control") "no-store"),
     ("access-control-allow-origin", (hget reqHeaders "origin").getD "*"),
     ("access-control-allow-credentials", "true"),
     ("vary", "Origin"),
     ("x-proxy-target", "chatgpt.com")]
  let out := copyResponseHeaders upstream.headers extras
  if containsSubstr ((hget upstream.headers "content-type").getD "") "text/event-stream" then
    hset out "cache-control" "no-cache"
  else out

/-- `corsHeaders(origin)` of the chatgpt half of `route.js`. -/
def corsHeadersB (origin : Option String) : HeaderList :=
  [("access-control-allow-origin", origin.getD "*"),
   ("access-control-allow-credentials", "true"),
   ("access-control-allow-headers", "*,authorization,content-type"),
   ("access-control-allow-methods", "GET,POST,PUT,PATCH,DELETE,OPTIONS"),
   ("access-control-max-age", "600"),
   ("vary", "Origin")]

/-- The response HeaderSet of the chatgpt half of `route.js`: CORS extras,
cache-control default and diagnostic header on top of the copied upstream
headers, then the SSE `no-cache` override. -/
def routeBResponseHeaders (reqHeaders : HeaderList) (upstream : JsResponse) :
    HeaderList :=
  let extras : HeaderList :=
    corsHeadersB (hget reqHeaders "origin") ++
    [("cache-control", orElseStr (hget upstream.headers "cache-control") "no-store"),
     ("x-proxy-target", "chatgpt.com")]
  let out := copyResponseHeaders upstream.headers extras
  if containsSubstr ((hget upstream.headers "content-type").getD "") "text/event-stream" then
    hset out "cache-control" "no-cache"
  else out

/-- The CORS-preflight headers of the middleware's OPTIONS branch
(`origin` uses `??`, the two echo headers use `||`). -/
def corsPreflightHeaders (reqHeaders : HeaderList) : HeaderList :=
  [("access-control-allow-origin", (hget reqHeaders "origin").getD "*"),
   ("access-control-allow-credentials", "true"),
   ("access-control-allow-headers",
     orElseStr (hget reqHeaders "access-control-request-headers") "*,authorization,content-type"),
   ("access-control-allow-methods",
     orElseStr (hget reqHeaders "access-control-request-method") "GET,POST,PUT,PATCH,DELETE,OPTIONS"),
   ("access-control-max-age", "600"),
   ("vary", "Origin")]

/-- The `OPTIONS` route export of the chatgpt half of `route.js`: a 204
response built locally; the second component counts outbound fetches (none
are made). -/
def routeOPTIONS (req : JsRequest) : JsResponse × Nat :=
  ({status := 204, headers := corsHeadersB (hget req.headers "origin"),
    body := "", setCookies := []}, 0)

/-- The deletion list of `sanitizeResponseHeaders` (`route.js` turnitin half
and `s.js`). -/
def sanitizeDenylist : List String :=
  ["content-security-policy-report-only", "report-to", "nel", "server",
   "alt-svc", "transfer-encoding", "content-encoding"]

/-- `sanitizeResponseHeaders(h)`: copy and delete the listed names. -/
def sanitizeResponseHeaders (h : HeaderList) : HeaderList :=
  sanitizeDenylist.foldl (fun out k => hdel out k) h

/-- The allowlist loop of `buildForwardHeaders` (both turnitin files). -/
def fwdAllowlist : List String :=
  ["accept", "accept-language", "cache-control", "pragma",
   "upgrade-insecure-requests"]

def fwdCopyAllowed (req : HeaderList) : HeaderList :=
  fwdAllowlist.foldl
    (fun fwd h =>
      match hget req h with
      | some v => if v = "" then fwd else hset fwd h v
      | none => fwd) []

/-- `buildForwardHeaders(req)` from `s.js` (referer falls back to the
inbound referer). -/
def buildForwardHeadersS (req : HeaderList) (inject : String) : HeaderList :=
  let fwd := fwdCopyAllowed req
  let fwd := hset fwd "user-agent" (orElseStr (hget req "user-agent") "Mozilla/5.0")
  let fwd := hset fwd "referer"
    (orElseStr (hget req "referer") ("https://" ++ turnitinHost ++ "/"))
  let fwd := hset fwd "origin" ("https://" ++ turnitinHost)
  let merged := mergeCookies
    ((((hget req "cookie").getD "") :: [inject]).filter (fun s => s != "")) 4096
  if merged = "" then fwd else hset fwd "cookie" merged

/-- `buildForwardHeaders(req)` from the turnitin half of `route.js` (referer
always spoofed). -/
def buildForwardHeadersR (req : HeaderList) (inject : String) : HeaderList :=
  let fwd := fwdCopyAllowed req
  let fwd := hset fwd "user-agent" (orElseStr (hget req "user-agent") "Mozilla/5.0")
  let fwd := hset fwd "referer" ("https://" ++ turnitinHost ++ "/")
  let fwd := hset fwd "origin" ("https://" ++ turnitinHost)
  let merged := mergeCookies
    ((((hget req "cookie").getD "") :: [inject]).filter (fun s => s != "")) 4096
  if merged = "" then fwd else hset fwd "cookie" merged

/-! ## Redirect-following fetch (`fetchFollow`, `middleware.js` and the
chatgpt half of `route.js`; the middleware variant only adds non-semantic
cache hints to the per-hop fetch options). The oracle maps the index of an
outbound call to the upstream's response; the second component is the trace
of issued calls as (url, headers) pairs. -/

/-- `new Response("Too many redirects from upstream", { status: 508 })`; a
string body gives the Response a text/plain content-type. -/
def tooManyRedirectsResp : JsResponse :=
  {status := 508, headers := [("content-type", "text/plain;charset=UTF-8")],
   body := "Too many redirects from upstream", setCookies := []}

/-- The loop body of `fetchFollow`. The source's `if (!loc) return res;`
tests JS falsiness: both an absent `location` header (`null`) and a
present-but-empty value make it return the 3xx response unresolved, which
the `none` case and the `loc = ""` guard model respectively. -/
def fetchFollowAux (oracle : Nat → JsResponse) (init : HeaderList) :
    Nat → String → Nat → JsResponse × List (String × HeaderList)
  | 0, _, _ => (tooManyRedirectsResp, [])
  | fuel + 1, current, i =>
    let res := oracle i
    if 300 ≤ res.status ∧ res.status < 400 then
      match hget res.headers "location" with
      | none => (res, [(current, init)])
      | some loc =>
        if loc = "" then (res, [(current, init)])
        else
          let next := fetchFollowAux oracle init fuel (resolveUrl loc current) (i + 1)
          (next.1, (current, init) :: next.2)
    else (res, [(current, init)])

def fetchFollow (oracle : Nat → JsResponse) (url : String)
    (init : HeaderList) (maxHops : Nat) : JsResponse × List (String × HeaderList) :=
  fetchFollowAux oracle init maxHops url 0

/-! ## The middleware entry point -/

/-- The static-asset bypass regexp of `middleware.js`. -/
def mwBypass (path : String) : Bool :=
  strIsPrefix "/_next/" path || path = "/favicon.ico" || path = "/robots.txt" ||
    path = "/sitemap.xml"

def mw405Resp : JsResponse :=
  {status := 405, headers := [("content-type", "text/plain;charset=UTF-8")],
   body := "Edge middleware proxy supports only GET/HEAD. Use a Route Handler for POST/PUT/etc.",
   setCookies := []}

/-- `middleware(req)`: `none` models `NextResponse.next()` (bypass); the
`Nat`-indexed oracle answers the outbound fetches of `fetchFollow`; the
returned trace lists the outbound calls made. -/
def middlewareM (inject : String) (oracle : Nat → JsResponse)
    (req : JsRequest) : Option (JsResponse × List (String × HeaderList)) :=
  if mwBypass req.url.path then none
  else if !(["GET", "HEAD", "OPTIONS"].contains req.method) then
    some (mw405Resp, [])
  else if req.method = "OPTIONS" then
    some ({status := 204, headers := corsPreflightHeaders req.headers,
           body := "", setCookies := []}, [])
  else
    let upstreamUrl := "https://chatgpt.com" ++ req.url.path ++ req.url.query
    let hdrs := copyRequestHeaders req.headers mwSpoof inject
    let rc := fetchFollow oracle upstreamUrl hdrs 5
    some ({status := rc.1.status, headers := mwResponseHeaders req.headers rc.1,
           body := rc.1.body, setCookies := []}, rc.2)

/-! ## The turnitin handlers (`route.js` first half and `s.js`) -/

/-- The upstream URL rewrite of the turnitin handlers: force https, drop
userinfo and port, replace the host, keep path and query. -/
def turnitinUpstreamUrl (req : JsRequest) : Url :=
  {scheme := "https", host := turnitinHost, path := req.url.path,
   query := req.url.query}

/-- The 502 response of the turnitin handlers' catch around the first
fetch. -/
def fetchFailResp (e : String) : JsResponse :=
  {status := 502, headers := [("content-type", "text/plain; charset=utf-8")],
   body := "Upstream fetch failed: " ++ e, setCookies := []}

/-- The response headers the turnitin handlers return: sanitized upstream
headers, diagnostic header, CORS origin echoing the *inbound request URL's*
origin, `vary: origin`, then `copySetCookie` appending every upstream
`Set-Cookie` occurrence. -/
def sFinalize (origin : String) (r : JsResponse) : HeaderList :=
  let out := sanitizeResponseHeaders r.headers
  let out := hset out "x-proxied-by" "next-node-runtime-proxy"
  let out := hset out "access-control-allow-origin" origin
  let out := hset out "vary" "origin"
  out ++ r.setCookies.map (fun sc => ("set-cookie", sc))

def sFinalizeResp (origin : String) (r : JsResponse) : JsResponse :=
  {status := r.status, headers := sFinalize origin r, body := r.body,
   setCookies := r.setCookies}

/-- `handle(req)` from `s.js`. The oracle is indexed by outbound-call count
and may throw (`Except.error`); the trace records the URLs of the fetch
calls actually issued. `s.js` exports this same function for every method,
OPTIONS included. -/
def sHandle (inject : String) (oracle : Nat → Except String JsResponse)
    (req : JsRequest) : JsResponse × List String :=
  let upstreamUrl := turnitinUpstreamUrl req
  let u0 := urlToString upstreamUrl
  -- every fetch of this handler sends `buildForwardHeadersS req.headers
  -- inject` (verified separately); the trace records the URLs issued
  let _ := buildForwardHeadersS req.headers inject
  match oracle 0 with
  | Except.error e => (fetchFailResp e, [u0])
  | Except.ok r0 =>
    if r0.status = 404 ∧ strEndsWith upstreamUrl.path "/" = false then
      let retryUrl := urlToString {upstreamUrl with path := upstreamUrl.path ++ "/"}
      match oracle 1 with
      | Except.error _ => (sFinalizeResp (urlOrigin req.url) r0, [u0, retryUrl])
      | Except.ok r1 => (sFinalizeResp (urlOrigin req.url) r1, [u0, retryUrl])
    else (sFinalizeResp (urlOrigin req.url) r0, [u0])

/-- `handle(req)` from the turnitin half of `route.js`. Its 404 retry block
reads the undeclared identifier `method` (`s.js` declares
`const method = req.method`, `route.js` does not), so evaluating the retry's
fetch options throws a ReferenceError *before* the retry fetch is issued,
and the empty `catch` swallows it: the original response is always kept and
no second call is ever made. -/
def routeHandle (inject : String) (oracle : Nat → Except String JsResponse)
    (req : JsRequest) : JsResponse × List String :=
  let upstreamUrl := turnitinUpstreamUrl req
  let u0 := urlToString upstreamUrl
  -- the first fetch sends `buildForwardHeadersR req.headers inject`
  -- (verified separately); the trace records the URLs issued
  let _ := buildForwardHeadersR req.headers inject
  match oracle 0 with
  | Except.error e => (fetchFailResp e, [u0])
  | Except.ok r0 => (sFinalizeResp (urlOrigin req.url) r0, [u0])

/-- Well-formedness of a header list as the JS runtime hands it to the
embedded code: names are unique and already lower-cased (the WHATWG
`Headers` class guarantees both on iteration). -/
def WfHeaderList (hs : HeaderList) : Prop :=
  (hs.map (fun p => p.1)).Nodup ∧ ∀ p ∈ hs, lowerStr p.1 = p.1

/-- The only header names `buildForwardHeaders` (either turnitin variant)
can ever emit. -/
def fwdKeepList : List String :=
  fwdAllowlist ++ ["user-agent", "referer", "origin", "cookie"]

/-! ## Fixtures for concrete examples -/

/-- A single cookie whose serialized form is exactly 5000 characters
(`a=` followed by 4998 `v`s). -/
def bigCookieStr : String := ⟨'a' :: '=' :: List.replicate 4998 'v'⟩

def bigCookie : List String := [bigCookieStr]

/-- A 302 redirect response pointing at `/next`. -/
def ex302 : JsResponse :=
  {status := 302, headers := [("location", "/next")], body := "", setCookies := []}

def ex200 : JsResponse :=
  {status := 200, headers := [("content-type", "text/html")], body := "hello",
   setCookies := []}

/-- Upstream answering one 302 (to `/next`) and then 200. -/
def exRedirectOracle : Nat → JsResponse :=
  fun i => if i = 0 then ex302 else ex200

def exInit : HeaderList := [("user-agent", "ua"), ("origin", "https://chatgpt.com")]

/-- Upstream answering 302 on every call. -/
def exLoopOracle : Nat → JsResponse := fun _ => ex302

/-- A 302 response whose `location` header is present but empty (falsy in
JS). -/
def ex302empty : JsResponse :=
  {status := 302, headers := [("location", "")], body := "", setCookies := []}

/-- Upstream answering that empty-`location` 302 on every call. -/
def exEmptyLoopOracle : Nat → JsResponse := fun _ => ex302empty

/-- An OPTIONS request with a caller Origin header. -/
def exC7Req : JsRequest :=
  {method := "OPTIONS",
   url := {scheme := "https", host := "proxy.example", path := "/x", query := ""},
   headers := [("origin", "https://caller.example")]}

def exC7Oracle : Nat → Except String JsResponse :=
  fun _ => Except.ok {status := 200, headers := [("content-type", "text/html")],
                      body := "ok", setCookies := []}

/-- An SSE upstream response that sets its own cache-control. -/
def exC8Resp : JsResponse :=
  {status := 200,
   headers := [("content-type", "text/event-stream"), ("cache-control", "max-age=60")],
   body := "data: x", setCookies := []}

def exC8Oracle : Nat → Except String JsResponse :=
  fun _ => Except.ok exC8Resp

def exC8Req : JsRequest :=
  {method := "GET",
   url := {scheme := "https", host := "proxy.example", path := "/events", query := ""},
   headers := []}

def exC9R404 : JsResponse :=
  {status := 404, headers := [("content-type", "text/html")], body := "not found",
   setCookies := []}

def exC9R200 : JsResponse :=
  {status := 200, headers := [("content-type", "text/html")], body := "found",
   setCookies := []}

/-- Upstream answering 404 on the first call and 200 afterwards. -/
def exC9Oracle : Nat → Except String JsResponse :=
  fun i => if i = 0 then Except.ok exC9R404 else Except.ok exC9R200

def exC9Req : JsRequest :=
  {method := "GET",
   url := {scheme := "https", host := "proxy.example", path := "/doc", query := ""},
   headers := []}

/-- Upstream answering 404 on the first call and throwing on the retry. -/
def exC10Oracle : Nat → Except String JsResponse :=
  fun i => if i = 0 then Except.ok exC9R404 else Except.error "ECONNRESET"

/-- An upstream response carrying a hop-by-hop header (`connection`). -/
def exC1Resp : JsResponse :=
  {status := 200,
   headers := [("connection", "keep-alive"), ("content-type", "text/html")],
   body := "ok", setCookies := []}

def exC1Oracle : Nat → Except String JsResponse :=
  fun _ => Except.ok exC1Resp

def exC1Req : JsRequest :=
  {method := "GET",
   url := {scheme := "https", host := "proxy.example", path := "/p", query := ""},
   headers := []}

theorem hget_hset_self (hs : HeaderList) (k v : String) :
    hget (hset hs k v) k = some v := by
  induction hs with
  | nil => simp [hset, hget]
  | cons p rest ih =>
    by_cases h : p.1 = k
    · simp [hset, h, hget]
    · simp [hset, h, hget, ih]

theorem hget_hset_ne (hs : HeaderList) {k k' : String} (v : String) (h : k' ≠ k) :
    hget (hset hs k v) k' = hget hs k' := by
  induction hs with
  | nil => simp [hset, hget, Ne.symm h]
  | cons p rest ih =>
    by_cases hp : p.1 = k
    · have hp' : ¬ p.1 = k' := by rw [hp]; exact Ne.symm h
      simp [hset, hp, hget, Ne.symm h, hp']
    · simp [hset, hp, hget, ih]

theorem hget_eq_none_of_keys (hs : HeaderList) (k : String)
    (h : ∀ p ∈ hs, p.1 ≠ k) : hget hs k = none := by
  induction hs with
  | nil => rfl
  | cons p rest ih =>
    have hp : p.1 ≠ k := h p (List.mem_cons_self p rest)
    simp [hget, hp]
    exact ih (fun q hq => h q (List.mem_cons_of_mem p hq))

theorem mem_hset {q : String × String} {hs : HeaderList} {k v : String}
    (hq : q ∈ hset hs k v) : q ∈ hs ∨ q.1 = k := by
  induction hs with
  | nil =>
    simp [hset] at hq
    right
    rw [hq]
  | cons p rest ih =>
    by_cases hp : p.1 = k
    · simp [hset, hp] at hq
      rcases hq with hq | hq
      · right; rw [hq]
      · left; exact List.mem_cons_of_mem p hq
    · simp [hset, hp] at hq
      rcases hq with hq | hq
      · left; rw [hq]; exact List.mem_cons_self p rest
      · rcases ih hq with h1 | h1
        · left; exact List.mem_cons_of_mem p h1
        · right; exact h1

theorem hget_hdel_self (hs : HeaderList) (k : String) :
    hget (hdel hs k) k = none := by
  apply hget_eq_none_of_keys
  intro p hp
  have := List.of_mem_filter hp
  simpa using this

theorem hget_hdel_ne (hs : HeaderList) {k k' : String} (h : k' ≠ k) :
    hget (hdel hs k) k' = hget hs k' := by
  induction hs with
  | nil => rfl
  | cons p rest ih =>
    by_cases hp : p.1 = k
    · have hp' : ¬ p.1 = k' := by rw [hp]; exact Ne.symm h
      have hcond : (p.1 != k) = false := by simp [hp]
      simp only [hdel, List.filter_cons, hcond] at *
      rw [hget, if_neg hp'] at *
      exact ih
    · have hcond : (p.1 != k) = true := by simp [hp]
      simp only [hdel, List.filter_cons, hcond] at *
      by_cases hq : p.1 = k'
      · simp only [hget, if_pos hq]
      · simp only [hget, if_neg hq]
        exact ih

theorem hget_append_of_some {a : HeaderList} (b : HeaderList) {k v : String}
    (h : hget a k = some v) : hget (a ++ b) k = some v := by
  induction a with
  | nil => simp [hget] at h
  | cons p rest ih =>
    by_cases hp : p.1 = k
    · simp [hget, hp] at *
      exact h
    · simp [hget, hp] at *
      exact ih h

theorem hget_append_of_none {a : HeaderList} (b : HeaderList) {k : String}
    (h : hget a k = none) : hget (a ++ b) k = hget b k := by
  induction a with
  | nil => rfl
  | cons p rest ih =>
    by_cases hp : p.1 = k
    · simp [hget, hp] at h
    · simp [hget, hp] at *
      exact ih h

theorem strTake_length (s : String) (n : Nat) :
    (strTake s n).length = min n s.length := by
  show (s.data.take n).length = min n s.data.length
  exact List.length_take n s.data

/-! ## Key invariants of the copying folds -/

theorem mem_reqCopyStep {q : String × String} {out : HeaderList}
    {p : String × String} (hq : q ∈ reqCopyStep out p) :
    q ∈ out ∨ (q.1 ∉ hopByHopList ∧ q.1 ≠ "host" ∧ q.1 ≠ "content-length") := by
  unfold reqCopyStep at hq
  by_cases h1 : lowerStr p.1 ∈ hopByHopList
  · simp only [if_pos h1] at hq
    exact Or.inl hq
  · simp only [if_neg h1] at hq
    by_cases h2 : lowerStr p.1 = "host"
    · simp only [if_pos h2] at hq
      exact Or.inl hq
    · simp only [if_neg h2] at hq
      by_cases h3 : lowerStr p.1 = "content-length"
      · simp only [if_pos h3] at hq
        exact Or.inl hq
      · simp only [if_neg h3] at hq
        rcases mem_hset hq with h | h
        · exact Or.inl h
        · right
          rw [h]
          exact ⟨h1, h2, h3⟩

theorem mem_foldl_reqCopyStep {req : HeaderList} {out : HeaderList}
    {q : String × String} (hq : q ∈ req.foldl reqCopyStep out) :
    q ∈ out ∨ (q.1 ∉ hopByHopList ∧ q.1 ≠ "host" ∧ q.1 ≠ "content-length") := by
  induction req generalizing out with
  | nil => exact Or.inl hq
  | cons p rest ih =>
    rcases ih hq with h | h
    · exact mem_reqCopyStep h
    · exact Or.inr h

theorem mem_respCopyStep {q : String × String} {out : HeaderList}
    {p : String × String} (hq : q ∈ respCopyStep out p) :
    q ∈ out ∨ (q.1 ∉ hopByHopList ∧ q.1 ≠ "content-length") := by
  unfold respCopyStep at hq
  by_cases h1 : lowerStr p.1 ∈ hopByHopList
  · simp only [if_pos h1] at hq
    exact Or.inl hq
  · simp only [if_neg h1] at hq
    by_cases h2 : lowerStr p.1 = "content-length"
    · simp only [if_pos h2] at hq
      exact Or.inl hq
    · simp only [if_neg h2] at hq
      rcases mem_hset hq with h | h
      · exact Or.inl h
      · right
        rw [h]
        exact ⟨h1, h2⟩

theorem mem_foldl_respCopyStep {req : HeaderList} {out : HeaderList}
    {q : String × String} (hq : q ∈ req.foldl respCopyStep out) :
    q ∈ out ∨ (q.1 ∉ hopByHopList ∧ q.1 ≠ "content-length") := by
  induction req generalizing out with
  | nil => exact Or.inl hq
  | cons p rest ih =>
    rcases ih hq with h | h
    · exact mem_respCopyStep h
    · exact Or.inr h

theorem mem_foldl_hset_lower {ov : HeaderList} {out : HeaderList}
    {q : String × String}
    (hq : q ∈ ov.foldl (fun o p => hset o (lowerStr p.1) p.2) out) :
    q ∈ out ∨ ∃ p ∈ ov, q.1 = lowerStr p.1 := by
  induction ov generalizing out with
  | nil => exact Or.inl hq
  | cons p rest ih =>
    rcases ih hq with h | h
    · rcases mem_hset h with h1 | h1
      · exact Or.inl h1
      · exact Or.inr ⟨p, List.mem_cons_self p rest, h1⟩
    · rcases h with ⟨r, hr, he⟩
      exact Or.inr ⟨r, List.mem_cons_of_mem p hr, he⟩

theorem hget_foldl_reqCopyStep_skip {req : HeaderList} {k : String}
    (out : HeaderList) (h : ∀ p ∈ req, lowerStr p.1 ≠ k) :
    hget (req.foldl reqCopyStep out) k = hget out k := by
  induction req generalizing out with
  | nil => rfl
  | cons p rest ih =>
    have hstep : hget (reqCopyStep out p) k = hget out k := by
      unfold reqCopyStep
      have hp := h p (List.mem_cons_self p rest)
      by_cases h1 : lowerStr p.1 ∈ hopByHopList
      · simp only [if_pos h1]
      · by_cases h2 : lowerStr p.1 = "host"
        · simp only [if_neg h1, if_pos h2]
        · by_cases h3 : lowerStr p.1 = "content-length"
          · simp only [if_neg h1, if_neg h2, if_pos h3]
          · simp only [if_neg h1, if_neg h2, if_neg h3]
            exact hget_hset_ne out p.2 (Ne.symm hp)
    rw [List.foldl_cons, ih (reqCopyStep out p) (fun q hq => h q (List.mem_cons_of_mem p hq)), hstep]

theorem hget_foldl_reqCopyStep_mem {req : HeaderList} {k v : String}
    (out : HeaderList) (hnd : (req.map (fun p => p.1)).Nodup)
    (hlc : ∀ p ∈ req, lowerStr p.1 = p.1) (hmem : (k, v) ∈ req)
    (hk1 : k ∉ hopByHopList) (hk2 : k ≠ "host") (hk3 : k ≠ "content-length") :
    hget (req.foldl reqCopyStep out) k = some v := by
  induction req generalizing out with
  | nil => cases hmem
  | cons p rest ih =>
    rcases List.mem_cons.mp hmem with hp | hp
    · have hplc : lowerStr p.1 = p.1 := hlc p (List.mem_cons_self p rest)
      have hpk : p.1 = k := by rw [← hp]
      have hstep : reqCopyStep out p = hset out k p.2 := by
        unfold reqCopyStep
        rw [hplc, hpk, if_neg hk1, if_neg hk2, if_neg hk3]
      have hrest : ∀ q ∈ rest, lowerStr q.1 ≠ k := by
        intro q hq
        have hqlc : lowerStr q.1 = q.1 := hlc q (List.mem_cons_of_mem p hq)
        rw [hqlc]
        intro hqk
        have : p.1 ∈ rest.map (fun p => p.1) := by
          rw [hpk, ← hqk]
          exact List.mem_map_of_mem (fun p => p.1) hq
        simp only [List.map_cons, List.nodup_cons] at hnd
        exact hnd.1 this
      rw [List.foldl_cons, hget_foldl_reqCopyStep_skip (reqCopyStep out p) hrest, hstep]
      rw [← hp]
      exact hget_hset_self out k v
    · have hnd' : (rest.map (fun p => p.1)).Nodup := by
        simp only [List.map_cons, List.nodup_cons] at hnd
        exact hnd.2
      exact ih (reqCopyStep out p) hnd'
        (fun q hq => hlc q (List.mem_cons_of_mem p hq)) hp

theorem hget_foldl_hset_lower_skip {ov : HeaderList} {k : String}
    (out : HeaderList) (h : ∀ p ∈ ov, lowerStr p.1 ≠ k) :
    hget (ov.foldl (fun o p => hset o (lowerStr p.1) p.2) out) k = hget out k := by
  induction ov generalizing out with
  | nil => rfl
  | cons p rest ih =>
    rw [List.foldl_cons, ih (hset out (lowerStr p.1) p.2)
      (fun q hq => h q (List.mem_cons_of_mem p hq)),
      hget_hset_ne out p.2 (Ne.symm (h p (List.mem_cons_self p rest)))]

/-! ## Membership characterizations of the outbound header sets -/

theorem mem_copyRequestHeaders {q : String × String} {req ov : HeaderList}
    {inject : String} (hq : q ∈ copyRequestHeaders req ov inject) :
    (q.1 ∉ hopByHopList ∧ q.1 ≠ "host" ∧ q.1 ≠ "content-length") ∨
      (∃ p ∈ ov, q.1 = lowerStr p.1) ∨ q.1 = "cookie" := by
  simp only [copyRequestHeaders] at hq
  have hmain : q ∈ ov.foldl (fun o p => hset o (lowerStr p.1) p.2)
      (req.foldl reqCopyStep []) ∨ q.1 = "cookie" := by
    by_cases hi : inject = ""
    · simp only [if_pos hi] at hq
      exact Or.inl (List.mem_of_mem_filter hq)
    · simp only [if_neg hi] at hq
      rcases mem_hset hq with h | h
      · exact Or.inl h
      · exact Or.inr h
  rcases hmain with h | h
  · rcases mem_foldl_hset_lower h with h1 | h1
    · rcases mem_foldl_reqCopyStep h1 with h2 | h2
      · cases h2
      · exact Or.inl h2
    · exact Or.inr (Or.inl h1)
  · exact Or.inr (Or.inr h)

theorem hget_copyRequestHeaders_none {req ov : HeaderList} {inject k : String}
    (hk : k ∈ hopByHopList ∨ k = "host")
    (hov : ∀ p ∈ ov, lowerStr p.1 ∉ hopByHopList ∧ lowerStr p.1 ≠ "host") :
    hget (copyRequestHeaders req ov inject) k = none := by
  apply hget_eq_none_of_keys
  intro q hq
  have hcookie1 : "cookie" ∉ hopByHopList := by decide
  have hcookie2 : "cookie" ≠ "host" := by decide
  rcases mem_copyRequestHeaders hq with ⟨h1, h2, _⟩ | ⟨p, hp, he⟩ | h
  · rcases hk with hk | hk
    · exact fun hqk => h1 (hqk ▸ hk)
    · exact fun hqk => h2 (hqk.trans hk)
  · rcases hk with hk | hk
    · exact fun hqk => (hov p hp).1 (he ▸ hqk ▸ hk)
    · exact fun hqk => (hov p hp).2 (he ▸ hqk.trans hk)
  · rcases hk with hk | hk
    · exact fun hqk => hcookie1 (h ▸ hqk ▸ hk)
    · exact fun hqk => hcookie2 (h ▸ (hqk.trans hk))

theorem mem_copyResponseHeaders {q : String × String} {src extra : HeaderList}
    (hq : q ∈ copyResponseHeaders src extra) :
    (q.1 ∉ hopByHopList ∧ q.1 ≠ "content-length") ∨
      ∃ p ∈ extra, q.1 = lowerStr p.1 := by
  simp only [copyResponseHeaders] at hq
  have h1 := List.mem_of_mem_filter hq
  rcases mem_foldl_hset_lower h1 with h2 | h2
  · rcases mem_foldl_respCopyStep h2 with h3 | h3
    · cases h3
    · exact Or.inl h3
  · exact Or.inr h2

theorem hget_copyResponseHeaders_none {src extra : HeaderList} {k : String}
    (hk : k ∈ hopByHopList)
    (hov : ∀ p ∈ extra, lowerStr p.1 ∉ hopByHopList) :
    hget (copyResponseHeaders src extra) k = none := by
  apply hget_eq_none_of_keys
  intro q hq
  rcases mem_copyResponseHeaders hq with ⟨h1, _⟩ | ⟨p, hp, he⟩
  · exact fun hqk => h1 (hqk ▸ hk)
  · exact fun hqk => (hov p hp) (he ▸ hqk ▸ hk)

theorem mem_foldl_fwdStep {l : List String} {req : HeaderList}
    {out : HeaderList} {q : String × String}
    (hq : q ∈ l.foldl
      (fun fwd h =>
        match hget req h with
        | some v => if v = "" then fwd else hset fwd h v
        | none => fwd) out) :
    q ∈ out ∨ q.1 ∈ l := by
  induction l generalizing out with
  | nil => exact Or.inl hq
  | cons h rest ih =>
    rw [List.foldl_cons] at hq
    rcases ih hq with h1 | h1
    · have h2 : q ∈ (match hget req h with
        | some v => if v = "" then out else hset out h v
        | none => out) := h1
      revert h2
      cases hget req h with
      | none => exact fun h2 => Or.inl h2
      | some v =>
        intro h2
        have h2' : q ∈ (if v = "" then out else hset out h v) := h2
        by_cases hv : v = ""
        · rw [if_pos hv] at h2'
          exact Or.inl h2'
        · rw [if_neg hv] at h2'
          rcases mem_hset h2' with h3 | h3
          · exact Or.inl h3
          · exact Or.inr (h3 ▸ List.mem_cons_self h rest)
    · exact Or.inr (List.mem_cons_of_mem h h1)

theorem mem_fwdCopyAllowed {req : HeaderList} {q : String × String}
    (hq : q ∈ fwdCopyAllowed req) : q.1 ∈ fwdAllowlist := by
  unfold fwdCopyAllowed at hq
  rcases mem_foldl_fwdStep hq with h | h
  · cases h
  · exact h

theorem mem_buildForwardHeadersS {req : HeaderList} {inject : String}
    {q : String × String} (hq : q ∈ buildForwardHeadersS req inject) :
    q.1 ∈ fwdKeepList := by
  simp only [buildForwardHeadersS] at hq
  have base : ∀ r ∈ hset (hset (hset (fwdCopyAllowed req) "user-agent"
      (orElseStr (hget req "user-agent") "Mozilla/5.0")) "referer"
      (orElseStr (hget req "referer") ("https://" ++ turnitinHost ++ "/")))
      "origin" ("https://" ++ turnitinHost), (r : String × String).1 ∈ fwdKeepList := by
    intro r hr
    rcases mem_hset hr with h1 | h1
    · rcases mem_hset h1 with h2 | h2
      · rcases mem_hset h2 with h3 | h3
        · exact List.mem_append_left _ (mem_fwdCopyAllowed h3)
        · rw [h3]; decide
      · rw [h2]; decide
    · rw [h1]; decide
  by_cases hm : mergeCookies ((((hget req "cookie").getD "") :: [inject]).filter
      (fun s => s != "")) 4096 = ""
  · simp only [if_pos hm] at hq
    exact base q hq
  · simp only [if_neg hm] at hq
    rcases mem_hset hq with h1 | h1
    · exact base q h1
    · rw [h1]; decide

theorem mem_buildForwardHeadersR {req : HeaderList} {inject : String}
    {q : String × String} (hq : q ∈ buildForwardHeadersR req inject) :
    q.1 ∈ fwdKeepList := by
  simp only [buildForwardHeadersR] at hq
  have base : ∀ r ∈ hset (hset (hset (fwdCopyAllowed req) "user-agent"
      (orElseStr (hget req "user-agent") "Mozilla/5.0")) "referer"
      ("https://" ++ turnitinHost ++ "/"))
      "origin" ("https://" ++ turnitinHost), (r : String × String).1 ∈ fwdKeepList := by
    intro r hr
    rcases mem_hset hr with h1 | h1
    · rcases mem_hset h1 with h2 | h2
      · rcases mem_hset h2 with h3 | h3
        · exact List.mem_append_left _ (mem_fwdCopyAllowed h3)
        · rw [h3]; decide
      · rw [h2]; decide
    · rw [h1]; decide
  by_cases hm : mergeCookies ((((hget req "cookie").getD "") :: [inject]).filter
      (fun s => s != "")) 4096 = ""
  · simp only [if_pos hm] at hq
    exact base q hq
  · simp only [if_neg hm] at hq
    rcases mem_hset hq with h1 | h1
    · exact base q h1
    · rw [h1]; decide

theorem hget_foldl_hdel_preserve {l : List String} {hs : HeaderList}
    {k : String} (h : hget hs k = none) :
    hget (l.foldl (fun out d => hdel out d) hs) k = none := by
  induction l generalizing hs with
  | nil => exact h
  | cons d rest ih =>
    apply ih
    by_cases hd : k = d
    · rw [hd]; exact hget_hdel_self hs d
    · rw [hget_hdel_ne hs hd]; exact h

theorem hget_foldl_hdel_mem {l : List String} (hs : HeaderList) {k : String}
    (hk : k ∈ l) :
    hget (l.foldl (fun out d => hdel out d) hs) k = none := by
  induction l generalizing hs with
  | nil => cases hk
  | cons d rest ih =>
    rcases List.mem_cons.mp hk with h | h
    · rw [List.foldl_cons]
      apply hget_foldl_hdel_preserve
      rw [h]
      exact hget_hdel_self hs d
    · exact ih (hdel hs d) h

/-! ## Claim C1 -/

/-- Claim C1 (amended). In the chatgpt variants (`copyRequestHeaders` with
any override whose lower-cased keys avoid the hop-by-hop set and `host`,
and `copyResponseHeaders` with such extras) no hop-by-hop name crosses the
boundary in either direction and outbound requests carry no `host`; the
turnitin variants' outbound request headers (`buildForwardHeaders`, both
files) likewise contain no hop-by-hop name and no `host`; but of the
hop-by-hop set the turnitin response sanitizer only removes
`transfer-encoding`, so other hop-by-hop response headers can cross (see
the counterexample). -/
theorem claim_c1_amended :
    (∀ req ov inject,
      (∀ p ∈ ov, lowerStr p.1 ∉ hopByHopList ∧ lowerStr p.1 ≠ "host") →
      (∀ k ∈ hopByHopList, hget (copyRequestHeaders req ov inject) k = none) ∧
      hget (copyRequestHeaders req ov inject) "host" = none) ∧
    (∀ req inject k, k ∈ hopByHopList ∨ k = "host" →
      hget (buildForwardHeadersS req inject) k = none ∧
      hget (buildForwardHeadersR req inject) k = none) ∧
    (∀ src extra, (∀ p ∈ extra, lowerStr p.1 ∉ hopByHopList) →
      ∀ k ∈ hopByHopList, hget (copyResponseHeaders src extra) k = none) ∧
    (∀ h, hget (sanitizeResponseHeaders h) "transfer-encoding" = none) := by
  refine ⟨?_, ?_, ?_, ?_⟩
  · intro req ov inject hov
    exact ⟨fun k hk => hget_copyRequestHeaders_none (Or.inl hk) hov,
      hget_copyRequestHeaders_none (Or.inr rfl) hov⟩
  · intro req inject k hk
    have hkeep : ∀ a ∈ fwdKeepList, a ∉ hopByHopList ∧ a ≠ "host" := by decide
    constructor
    · apply hget_eq_none_of_keys
      intro q hq
      have hqk := hkeep q.1 (mem_buildForwardHeadersS hq)
      rcases hk with hk | hk
      · exact fun he => hqk.1 (he ▸ hk)
      · exact fun he => hqk.2 (he.trans hk)
    · apply hget_eq_none_of_keys
      intro q hq
      have hqk := hkeep q.1 (mem_buildForwardHeadersR hq)
      rcases hk with hk | hk
      · exact fun he => hqk.1 (he ▸ hk)
      · exact fun he => hqk.2 (he.trans hk)
  · intro src extra hov k hk
    exact hget_copyResponseHeaders_none hk hov
  · intro h
    show hget (sanitizeDenylist.foldl (fun out d => hdel out d) h)
      "transfer-encoding" = none
    apply hget_foldl_hdel_mem
    decide

/-- Claim C1 counterexample: an upstream response of the turnitin handler
carrying `connection: keep-alive` (a hop-by-hop name) reaches the caller
with that header intact, because `sanitizeResponseHeaders` does not delete
it. -/
theorem claim_c1_counterexample :
    "connection" ∈ hopByHopList ∧
      hget (sHandle "" exC1Oracle exC1Req).1.headers "connection" =
        some "keep-alive" := by
  decide

/-- Closed instance of `claim_c1_amended`. -/
theorem claim_c1_witness :
    hget (copyRequestHeaders [("connection", "close")] mwSpoof "c=1")
        "connection" = none ∧
      hget (buildForwardHeadersS [("upgrade", "h2c")] "") "upgrade" = none := by
  constructor
  · exact (claim_c1_amended.1 [("connection", "close")] mwSpoof "c=1"
      (by decide)).1 "connection" (by decide)
  · exact (claim_c1_amended.2.1 [("upgrade", "h2c")] "" "upgrade"
      (Or.inl (by decide))).1

/-! ## Claim C5 -/

theorem hget_copyRequestHeaders_preserved {req ov : HeaderList}
    {inject k v : String} (hwf : WfHeaderList req) (hmem : (k, v) ∈ req)
    (hk1 : k ∉ hopByHopList) (hk2 : k ≠ "host") (hk3 : k ≠ "content-length")
    (hk4 : k ≠ "cookie") (hov : ∀ p ∈ ov, lowerStr p.1 ≠ k) :
    hget (copyRequestHeaders req ov inject) k = some v := by
  simp only [copyRequestHeaders]
  have hbase : hget (req.foldl reqCopyStep []) k = some v :=
    hget_foldl_reqCopyStep_mem [] hwf.1 hwf.2 hmem hk1 hk2 hk3
  have hov' : hget (ov.foldl (fun o p => hset o (lowerStr p.1) p.2)
      (req.foldl reqCopyStep [])) k = some v := by
    rw [hget_foldl_hset_lower_skip _ hov]
    exact hbase
  by_cases hi : inject = ""
  · rw [if_pos hi, hget_hdel_ne _ hk4]
    exact hov'
  · rw [if_neg hi, hget_hset_ne _ _ hk4]
    exact hov'

/-- Claim C5 (amended). `copyRequestHeaders` (the chatgpt variants) indeed
forwards every inbound header except exactly the hop-by-hop set, `host` and
`content-length`, with the static overrides and the cookie policy applied
on top; but the turnitin variants' request transform
(`buildForwardHeaders`, both files) is an allowlist that emits only the
names in `fwdKeepList`, dropping every other inbound header (see the
counterexample). -/
theorem claim_c5_amended :
    (∀ req ov inject k v, WfHeaderList req → (k, v) ∈ req →
      k ∉ hopByHopList → k ≠ "host" → k ≠ "content-length" → k ≠ "cookie" →
      (∀ p ∈ ov, lowerStr p.1 ≠ k) →
      hget (copyRequestHeaders req ov inject) k = some v) ∧
    (∀ req inject k, k ∉ fwdKeepList →
      hget (buildForwardHeadersS req inject) k = none ∧
      hget (buildForwardHeadersR req inject) k = none) := by
  constructor
  · intro req ov inject k v hwf hmem hk1 hk2 hk3 hk4 hov
    exact hget_copyRequestHeaders_preserved hwf hmem hk1 hk2 hk3 hk4 hov
  · intro req inject k hk
    constructor
    · apply hget_eq_none_of_keys
      intro q hq
      exact fun he => hk (he ▸ mem_buildForwardHeadersS hq)
    · apply hget_eq_none_of_keys
      intro q hq
      exact fun he => hk (he ▸ mem_buildForwardHeadersR hq)

/-- Claim C5 counterexample: `authorization` is neither hop-by-hop nor
`host` nor `content-length`, yet the turnitin request transform drops it. -/
theorem claim_c5_counterexample :
    ("authorization" ∉ hopByHopList ∧ "authorization" ≠ "host" ∧
      "authorization" ≠ "content-length") ∧
    hget (buildForwardHeadersS [("authorization", "Bearer t")] "")
      "authorization" = none := by
  decide

/-- Closed instance of `claim_c5_amended`. -/
theorem claim_c5_witness :
    hget (copyRequestHeaders [("x-custom", "1")] mwSpoof "c=1") "x-custom" =
      some "1" :=
  claim_c5_amended.1 [("x-custom", "1")] mwSpoof "c=1" "x-custom" "1"
    ⟨by decide, by decide⟩ (by decide) (by decide) (by decide) (by decide)
    (by decide) (by decide)

/-! ## Claims C3 and C4 -/

theorem fetchFollowAux_trace_headers (oracle : Nat → JsResponse)
    (init : HeaderList) (fuel : Nat) :
    ∀ current i c, c ∈ (fetchFollowAux oracle init fuel current i).2 →
      c.2 = init := by
  induction fuel with
  | zero =>
    intro current i c hc
    cases hc
  | succ n ih =>
    intro current i c hc
    simp only [fetchFollowAux] at hc
    by_cases hcond : 300 ≤ (oracle i).status ∧ (oracle i).status < 400
    · rw [if_pos hcond] at hc
      cases hloc : hget (oracle i).headers "location" with
      | none =>
        rw [hloc] at hc
        simp only [List.mem_singleton] at hc
        rw [hc]
      | some loc =>
        rw [hloc] at hc
        have hc2 : c ∈ (if loc = "" then (oracle i, [(current, init)])
            else ((fetchFollowAux oracle init n (resolveUrl loc current) (i + 1)).1,
              (current, init) ::
                (fetchFollowAux oracle init n (resolveUrl loc current) (i + 1)).2)).2 := hc
        by_cases hne : loc = ""
        · rw [if_pos hne] at hc2
          simp only [List.mem_singleton] at hc2
          rw [hc2]
        · rw [if_neg hne] at hc2
          simp only [List.mem_cons] at hc2
          rcases hc2 with hc2 | hc2
          · rw [hc2]
          · exact ih (resolveUrl loc current) (i + 1) c hc2
    · rw [if_neg hcond] at hc
      simp only [List.mem_singleton] at hc
      rw [hc]

/-- Claim C3 counterexample: a 302 response *carrying* a `location` header
whose value is empty is returned unresolved after a single outbound call —
no next request is issued (the source's `if (!loc) return res` treats the
empty value as falsy), refuting the claim's universal redirect step. -/
theorem claim_c3_counterexample :
    hget ex302empty.headers "location" = some "" ∧
    300 ≤ ex302empty.status ∧ ex302empty.status < 400 ∧
    fetchFollow exEmptyLoopOracle "https://chatgpt.com/start" exInit 5 =
      (ex302empty, [("https://chatgpt.com/start", exInit)]) := by
  decide

/-- Claim C3 (amended). On a 3xx response carrying a *non-empty* `Location`
value, `fetchFollow` issues exactly one more call, to the location resolved
against the current URL, with the *same* header set (the init is threaded
unchanged, so every traced call carries it); the resolver supports absolute
and relative locations; and the concrete 302-then-200 exchange resolves to
the 200 response with exactly two outbound calls. (A present-but-empty
`Location` is falsy in JS and treated like an absent header: the 3xx is
returned unresolved, see the counterexample.) -/
theorem claim_c3_amended :
    (∀ oracle init fuel current i loc,
      300 ≤ (oracle i).status → (oracle i).status < 400 → loc ≠ "" →
      hget (oracle i).headers "location" = some loc →
      fetchFollowAux oracle init (fuel + 1) current i =
        ((fetchFollowAux oracle init fuel (resolveUrl loc current) (i + 1)).1,
         (current, init) ::
           (fetchFollowAux oracle init fuel (resolveUrl loc current) (i + 1)).2)) ∧
    (∀ oracle init fuel current i c,
      c ∈ (fetchFollowAux oracle init fuel current i).2 → c.2 = init) ∧
    resolveUrl "/next" "https://chatgpt.com/start?x=1" =
      "https://chatgpt.com/next" ∧
    resolveUrl "https://other.example/a?b=2" "https://chatgpt.com/start" =
      "https://other.example/a?b=2" ∧
    fetchFollow exRedirectOracle "https://chatgpt.com/start" exInit 5 =
      (ex200, [("https://chatgpt.com/start", exInit),
               ("https://chatgpt.com/next", exInit)]) := by
  refine ⟨?_, ?_, by decide, by decide, by decide⟩
  · intro oracle init fuel current i loc h1 h2 hne hloc
    simp only [fetchFollowAux, hloc, if_pos (And.intro h1 h2), if_neg hne]
  · intro oracle init fuel current i c hc
    exact fetchFollowAux_trace_headers oracle init fuel current i c hc

/-- Closed instance of `claim_c3_amended`: the redirect-step equation at
the concrete 302 exchange. -/
theorem claim_c3_witness :
    fetchFollowAux exRedirectOracle exInit 5 "https://chatgpt.com/start" 0 =
      ((fetchFollowAux exRedirectOracle exInit 4
          (resolveUrl "/next" "https://chatgpt.com/start") 1).1,
       ("https://chatgpt.com/start", exInit) ::
         (fetchFollowAux exRedirectOracle exInit 4
           (resolveUrl "/next" "https://chatgpt.com/start") 1).2) :=
  claim_c3_amended.1 exRedirectOracle exInit 4 "https://chatgpt.com/start" 0
    "/next" (by decide) (by decide) (by decide) (by decide)

theorem fetchFollowAux_exhaust (oracle : Nat → JsResponse) (init : HeaderList)
    (fuel : Nat) :
    ∀ current i,
    (∀ j, i ≤ j → j < i + fuel →
      (300 ≤ (oracle j).status ∧ (oracle j).status < 400) ∧
      (hget (oracle j).headers "location").getD "" ≠ "") →
    (fetchFollowAux oracle init fuel current i).1 = tooManyRedirectsResp ∧
    (fetchFollowAux oracle init fuel current i).2.length = fuel := by
  induction fuel with
  | zero =>
    intro current i _
    exact ⟨rfl, rfl⟩
  | succ n ih =>
    intro current i h
    have hi := h i (Nat.le_refl i) (by omega)
    obtain ⟨loc, hloc, hne⟩ : ∃ loc,
        hget (oracle i).headers "location" = some loc ∧ loc ≠ "" := by
      cases hl : hget (oracle i).headers "location" with
      | none =>
        rw [hl] at hi
        exact absurd rfl hi.2
      | some loc =>
        rw [hl] at hi
        exact ⟨loc, rfl, hi.2⟩
    have hstep : fetchFollowAux oracle init (n + 1) current i =
        ((fetchFollowAux oracle init n (resolveUrl loc current) (i + 1)).1,
         (current, init) ::
           (fetchFollowAux oracle init n (resolveUrl loc current) (i + 1)).2) := by
      simp only [fetchFollowAux, hloc, if_pos hi.1, if_neg hne]
    rw [hstep]
    have hrec := ih (resolveUrl loc current) (i + 1)
      (fun j hj1 hj2 => h j (by omega) (by omega))
    exact ⟨hrec.1, by simp [hrec.2]⟩

/-- Claim C4 counterexample: six consecutive 302 responses each carrying an
*empty* (falsy) `location` value satisfy the claim's premise, yet
`fetchFollow` returns the first 302 after exactly one outbound call, not a
508 after five. -/
theorem claim_c4_counterexample :
    (∀ j < 6, 300 ≤ (exEmptyLoopOracle j).status ∧
      (exEmptyLoopOracle j).status < 400 ∧
      (hget (exEmptyLoopOracle j).headers "location").isSome = true) ∧
    (fetchFollow exEmptyLoopOracle "https://chatgpt.com/a" exInit 5).1.status
      = 302 ∧
    (fetchFollow exEmptyLoopOracle "https://chatgpt.com/a" exInit 5).2.length
      = 1 := by
  decide

/-- Claim C4 (amended). An upstream answering six consecutive redirects
with non-empty `Location` values under the hop limit 5 makes `fetchFollow`
stop after exactly 5 outbound calls and return the locally synthesized 508
plain-text response. (With an empty `Location` value the 3xx is returned
unresolved instead, see the counterexample.) -/
theorem claim_c4_amended (oracle : Nat → JsResponse) (url : String)
    (init : HeaderList)
    (h : ∀ j < 6, (300 ≤ (oracle j).status ∧ (oracle j).status < 400) ∧
      (hget (oracle j).headers "location").getD "" ≠ "") :
    (fetchFollow oracle url init 5).1 = tooManyRedirectsResp ∧
    (fetchFollow oracle url init 5).1.status = 508 ∧
    (fetchFollow oracle url init 5).1.body =
      "Too many redirects from upstream" ∧
    (fetchFollow oracle url init 5).2.length = 5 := by
  have hx := fetchFollowAux_exhaust oracle init 5 url 0
    (fun j hj1 hj2 => h j (by omega))
  refine ⟨hx.1, ?_, ?_, hx.2⟩
  · rw [show (fetchFollow oracle url init 5).1 = tooManyRedirectsResp from hx.1]
    rfl
  · rw [show (fetchFollow oracle url init 5).1 = tooManyRedirectsResp from hx.1]
    rfl

/-- Closed instance of `claim_c4_amended` at the constant-302 upstream
(location `/next` on every hop). -/
theorem claim_c4_witness :
    (fetchFollow exLoopOracle "https://chatgpt.com/a" exInit 5).1.status = 508 ∧
      (fetchFollow exLoopOracle "https://chatgpt.com/a" exInit 5).2.length = 5 := by
  have h := claim_c4_amended exLoopOracle "https://chatgpt.com/a" exInit
    (by decide)
  exact ⟨h.2.1, h.2.2.2⟩

/-! ## Claims C7, C8, C9, C10 -/

theorem hget_foldl_hdel_not_mem {l : List String} (hs : HeaderList) {k : String}
    (hk : k ∉ l) : hget (l.foldl (fun out d => hdel out d) hs) k = hget hs k := by
  induction l generalizing hs with
  | nil => rfl
  | cons d rest ih =>
    rw [List.foldl_cons, ih (hdel hs d) (fun h => hk (List.mem_cons_of_mem d h)),
      hget_hdel_ne hs (fun he => hk (by rw [he]; exact List.mem_cons_self d rest))]

theorem mw_options_204 (inject : String) (oracle : Nat → JsResponse)
    (req : JsRequest) (hm : req.method = "OPTIONS")
    (hbp : mwBypass req.url.path = false) :
    middlewareM inject oracle req =
      some ({status := 204, headers := corsPreflightHeaders req.headers,
             body := "", setCookies := []}, []) := by
  simp only [middlewareM, hm, hbp]
  rfl

theorem sHandle_no_retry (inject : String)
    (oracle : Nat → Except String JsResponse) (req : JsRequest)
    (r0 : JsResponse) (h0 : oracle 0 = Except.ok r0)
    (h404 : r0.status ≠ 404) :
    sHandle inject oracle req =
      (sFinalizeResp (urlOrigin req.url) r0,
       [urlToString (turnitinUpstreamUrl req)]) := by
  simp only [sHandle, h0]
  rw [if_neg (fun hc => h404 hc.1)]

theorem sHandle_retry_error (inject : String)
    (oracle : Nat → Except String JsResponse) (req : JsRequest)
    (r0 : JsResponse) (e : String) (h0 : oracle 0 = Except.ok r0)
    (h404 : r0.status = 404) (hsl : strEndsWith req.url.path "/" = false)
    (h1 : oracle 1 = Except.error e) :
    sHandle inject oracle req =
      (sFinalizeResp (urlOrigin req.url) r0,
       [urlToString (turnitinUpstreamUrl req),
        urlToString {turnitinUpstreamUrl req with
          path := (turnitinUpstreamUrl req).path ++ "/"}]) := by
  have hsl' : strEndsWith (turnitinUpstreamUrl req).path "/" = false := hsl
  simp only [sHandle, h0, h1]
  rw [if_pos (And.intro h404 hsl')]

theorem hget_sFinalize_acao (origin : String) (r : JsResponse) :
    hget (sFinalize origin r) "access-control-allow-origin" = some origin := by
  simp only [sFinalize]
  apply hget_append_of_some
  rw [hget_hset_ne _ _ (by decide)]
  exact hget_hset_self _ _ _

/-- Claim C7 (amended). In `middleware.js` and the chatgpt half of
`route.js` an inbound OPTIONS request yields a locally built 204 whose
`access-control-allow-origin` echoes the inbound `Origin` (or `*`), with no
outbound call; but `s.js` exports its generic proxy `handle` for OPTIONS as
well, so there OPTIONS contacts the upstream, returns the upstream's
status, and sets `access-control-allow-origin` to the inbound request URL's
own origin instead of the `Origin` header. -/
theorem claim_c7_amended :
    (∀ inject oracle req, req.method = "OPTIONS" →
      mwBypass req.url.path = false →
      middlewareM inject oracle req =
        some ({status := 204, headers := corsPreflightHeaders req.headers,
               body := "", setCookies := []}, []) ∧
      hget (corsPreflightHeaders req.headers) "access-control-allow-origin" =
        some ((hget req.headers "origin").getD "*")) ∧
    (∀ req : JsRequest, (routeOPTIONS req).1.status = 204 ∧
      (routeOPTIONS req).2 = 0 ∧
      hget (routeOPTIONS req).1.headers "access-control-allow-origin" =
        some ((hget req.headers "origin").getD "*")) ∧
    (∀ inject oracle req r0, oracle 0 = Except.ok r0 → r0.status ≠ 404 →
      (sHandle inject oracle req).1.status = r0.status ∧
      (sHandle inject oracle req).2 = [urlToString (turnitinUpstreamUrl req)] ∧
      hget (sHandle inject oracle req).1.headers "access-control-allow-origin" =
        some (urlOrigin req.url)) := by
  refine ⟨?_, ?_, ?_⟩
  · intro inject oracle req hm hbp
    exact ⟨mw_options_204 inject oracle req hm hbp, rfl⟩
  · intro req
    exact ⟨rfl, rfl, rfl⟩
  · intro inject oracle req r0 h0 h404
    rw [sHandle_no_retry inject oracle req r0 h0 h404]
    exact ⟨rfl, rfl, hget_sFinalize_acao (urlOrigin req.url) r0⟩

/-- Claim C7 counterexample: in `s.js` an OPTIONS request is proxied (one
outbound call), answers with the upstream's 200 rather than 204, and its
`access-control-allow-origin` is the proxy URL's origin, not the caller's
`Origin` header. -/
theorem claim_c7_counterexample :
    (sHandle "" exC7Oracle exC7Req).1.status = 200 ∧
    (sHandle "" exC7Oracle exC7Req).1.status ≠ 204 ∧
    (sHandle "" exC7Oracle exC7Req).2.length = 1 ∧
    hget (sHandle "" exC7Oracle exC7Req).1.headers
        "access-control-allow-origin" = some "https://proxy.example" := by
  decide

/-- Closed instance of `claim_c7_amended`. -/
theorem claim_c7_witness :
    middlewareM "" exLoopOracle exC7Req =
      some ({status := 204, headers := corsPreflightHeaders exC7Req.headers,
             body := "", setCookies := []}, []) :=
  (claim_c7_amended.1 "" exLoopOracle exC7Req (by decide) (by decide)).1

theorem mwResponseHeaders_sse {reqHeaders : HeaderList} {up : JsResponse}
    (hsse : containsSubstr ((hget up.headers "content-type").getD "")
      "text/event-stream" = true) :
    hget (mwResponseHeaders reqHeaders up) "cache-control" = some "no-cache" := by
  simp only [mwResponseHeaders]
  rw [if_pos hsse]
  exact hget_hset_self _ _ _

theorem routeBResponseHeaders_sse {reqHeaders : HeaderList} {up : JsResponse}
    (hsse : containsSubstr ((hget up.headers "content-type").getD "")
      "text/event-stream" = true) :
    hget (routeBResponseHeaders reqHeaders up) "cache-control" =
      some "no-cache" := by
  simp only [routeBResponseHeaders]
  rw [if_pos hsse]
  exact hget_hset_self _ _ _

theorem sFinalize_cache_control (origin : String) (r : JsResponse) :
    hget (sFinalize origin r) "cache-control" =
      hget r.headers "cache-control" := by
  simp only [sFinalize]
  have hX : hget (hset (hset (hset (sanitizeResponseHeaders r.headers)
      "x-proxied-by" "next-node-runtime-proxy") "access-control-allow-origin"
      origin) "vary" "origin") "cache-control" = hget r.headers "cache-control" := by
    rw [hget_hset_ne _ _ (by decide), hget_hset_ne _ _ (by decide),
      hget_hset_ne _ _ (by decide)]
    exact hget_foldl_hdel_not_mem r.headers (by decide)
  cases hcc : hget r.headers "cache-control" with
  | none =>
    rw [hget_append_of_none _ (hX.trans hcc)]
    apply hget_eq_none_of_keys
    intro q hq hqe
    rcases List.mem_map.mp hq with ⟨sc, _, he⟩
    rw [← he] at hqe
    simp at hqe
  | some v =>
    exact hget_append_of_some _ (hX.trans hcc)

/-- Claim C8 (amended). `middleware.js` and the chatgpt half of `route.js`
force `cache-control: no-cache` on the response whenever the upstream
content-type includes `text/event-stream`, overriding the `no-store`
default and any upstream value; the turnitin handlers (`s.js` and the
turnitin half of `route.js`) have no such branch and forward the upstream
`cache-control` unchanged. -/
theorem claim_c8_amended :
    (∀ reqHeaders up,
      containsSubstr ((hget up.headers "content-type").getD "")
        "text/event-stream" = true →
      hget (mwResponseHeaders reqHeaders up) "cache-control" =
        some "no-cache" ∧
      hget (routeBResponseHeaders reqHeaders up) "cache-control" =
        some "no-cache") ∧
    (∀ origin r, hget (sFinalize origin r) "cache-control" =
      hget r.headers "cache-control") := by
  constructor
  · intro reqHeaders up hsse
    exact ⟨mwResponseHeaders_sse hsse, routeBResponseHeaders_sse hsse⟩
  · intro origin r
    exact sFinalize_cache_control origin r

/-- Claim C8 counterexample: an event-stream upstream response through the
`s.js` handler keeps its upstream `cache-control: max-age=60`; nothing
forces `no-cache`. -/
theorem claim_c8_counterexample :
    containsSubstr ((hget exC8Resp.headers "content-type").getD "")
      "text/event-stream" = true ∧
    hget (sHandle "" exC8Oracle exC8Req).1.headers "cache-control" =
      some "max-age=60" := by
  decide

/-- Closed instance of `claim_c8_amended`. -/
theorem claim_c8_witness :
    hget (mwResponseHeaders [] exC8Resp) "cache-control" = some "no-cache" :=
  (claim_c8_amended.1 [] exC8Resp (by decide)).1

/-- Claim C9: the turnitin `route.js` handler's trailing-slash retry never
happens. At an upstream that answers 404 for `/doc` and 200 for `/doc/`,
`route.js` issues exactly one outbound call and returns the 404 (its retry
block throws a ReferenceError on the undeclared `method` before the fetch),
while `s.js` — the same code with `const method` declared — performs exactly
the one retry and returns the 200. -/
theorem claim_c9_bug :
    (routeHandle "" exC9Oracle exC9Req).1.status = 404 ∧
    (routeHandle "" exC9Oracle exC9Req).2 = ["https://ev.turnitin.com/doc"] ∧
    (sHandle "" exC9Oracle exC9Req).1.status = 200 ∧
    (sHandle "" exC9Oracle exC9Req).2 =
      ["https://ev.turnitin.com/doc", "https://ev.turnitin.com/doc/"] := by
  decide

/-- Claim C10. If the single trailing-slash retry throws, the handler
returns the response built from the original 404 upstream response (and the
`route.js` variant, whose retry always throws, likewise always returns the
response built from the first upstream response). -/
theorem claim_c10 :
    (∀ inject oracle req r0 e, oracle 0 = Except.ok r0 → r0.status = 404 →
      strEndsWith req.url.path "/" = false → oracle 1 = Except.error e →
      (sHandle inject oracle req).1 = sFinalizeResp (urlOrigin req.url) r0 ∧
      (sHandle inject oracle req).1.status = 404 ∧
      (sHandle inject oracle req).2.length = 2) ∧
    (∀ inject oracle req r0, oracle 0 = Except.ok r0 →
      (routeHandle inject oracle req).1 =
        sFinalizeResp (urlOrigin req.url) r0) := by
  constructor
  · intro inject oracle req r0 e h0 h404 hsl h1
    rw [sHandle_retry_error inject oracle req r0 e h0 h404 hsl h1]
    refine ⟨rfl, ?_, rfl⟩
    show r0.status = 404
    exact h404
  · intro inject oracle req r0 h0
    simp only [routeHandle, h0]

/-- Closed instance of `claim_c10`. -/
theorem claim_c10_witness :
    (sHandle "" exC10Oracle exC9Req).1.status = 404 ∧
    (sHandle "" exC10Oracle exC9Req).2.length = 2 := by
  have h := claim_c10.1 "" exC10Oracle exC9Req exC9R404 "ECONNRESET"
    (by rfl) (by decide) (by decide) (by rfl)
  exact ⟨h.2.1, h.2.2⟩

/-! ## Claim C6 -/

theorem splitCharList_single {sep : Char} {l : List Char}
    (h : ∀ c ∈ l, c ≠ sep) : splitCharList sep l = [l] := by
  induction l with
  | nil => rfl
  | cons c rest ih =>
    have hr := ih (fun d hd => h d (List.mem_cons_of_mem c hd))
    simp only [splitCharList, hr]
    rw [if_neg (h c (List.mem_cons_self c rest))]

theorem dropWhile_all_false {α : Type} {p : α → Bool} {l : List α}
    (h : ∀ c ∈ l, p c = false) : l.dropWhile p = l := by
  cases l with
  | nil => rfl
  | cons c rest =>
    rw [List.dropWhile_cons, if_neg]
    simp [h c (List.mem_cons_self c rest)]

theorem trimChars_id {l : List Char}
    (h : ∀ c ∈ l, c.isWhitespace = false) : trimChars l = l := by
  unfold trimChars
  rw [dropWhile_all_false h, dropWhile_all_false, List.reverse_reverse]
  intro c hc
  exact h c (List.mem_reverse.mp hc)

theorem big_no_ws : ∀ c ∈ ('a' :: '=' :: List.replicate 4998 'v' : List Char),
    c.isWhitespace = false := by
  intro c hc
  rcases List.mem_cons.mp hc with h | hc
  · rw [h]; decide
  rcases List.mem_cons.mp hc with h | hc
  · rw [h]; decide
  · rw [List.eq_of_mem_replicate hc]; decide

theorem big_no_semi : ∀ c ∈ ('a' :: '=' :: List.replicate 4998 'v' : List Char),
    c ≠ ';' := by
  intro c hc
  rcases List.mem_cons.mp hc with h | hc
  · rw [h]; decide
  rcases List.mem_cons.mp hc with h | hc
  · rw [h]; decide
  · rw [List.eq_of_mem_replicate hc]; decide

theorem vrep_trim :
    strTrim ⟨List.replicate 4998 'v'⟩ = ⟨List.replicate 4998 'v'⟩ := by
  show (⟨trimChars (List.replicate 4998 'v')⟩ : String) = _
  rw [trimChars_id]
  intro c hc
  rw [List.eq_of_mem_replicate hc]
  decide

theorem big_trim : strTrim bigCookieStr = bigCookieStr := by
  show (⟨trimChars bigCookieStr.data⟩ : String) = bigCookieStr
  rw [show bigCookieStr.data = 'a' :: '=' :: List.replicate 4998 'v' from rfl,
    trimChars_id big_no_ws]
  rfl

theorem big_ne_empty : ¬ bigCookieStr = "" := by
  intro h
  have hd : bigCookieStr.data = [] := by rw [h]
  rw [show bigCookieStr.data = 'a' :: '=' :: List.replicate 4998 'v' from rfl] at hd
  exact List.noConfusion hd

/-- Definitional unfolding of `parseSeg` (cheap because the argument is
abstract). -/
theorem parseSeg_eq (part : String) :
    parseSeg part =
      (if strTrim part = "" then none
      else match splitFirstEq (strTrim part) with
        | none => none
        | some nv =>
          if strTrim nv.1 = "" then none
          else if isTracking (strTrim nv.1) then none
          else some (strTrim nv.1, strTrim nv.2)) := rfl

theorem big_parseSeg :
    parseSeg bigCookieStr = some ("a", ⟨List.replicate 4998 'v'⟩) := by
  have hsplit : splitFirstEq bigCookieStr =
      some ("a", ⟨List.replicate 4998 'v'⟩) := rfl
  rw [parseSeg_eq, big_trim, if_neg big_ne_empty, hsplit]
  show (if strTrim "a" = "" then none
    else if isTracking (strTrim "a") then none
    else some (strTrim "a", strTrim (⟨List.replicate 4998 'v'⟩ : String))) =
    some ("a", ⟨List.replicate 4998 'v'⟩)
  rw [vrep_trim, show strTrim "a" = "a" from rfl, if_neg (by decide),
    if_neg (by decide)]

theorem big_parsePairs :
    parsePairs bigCookieStr = [("a", ⟨List.replicate 4998 'v'⟩)] := by
  have hsplit : strSplitChar bigCookieStr ';' = [bigCookieStr] := by
    unfold strSplitChar
    rw [show bigCookieStr.data = 'a' :: '=' :: List.replicate 4998 'v' from rfl,
      splitCharList_single big_no_semi]
    rfl
  rw [parsePairs, hsplit, List.filterMap_cons, big_parseSeg]
  rfl

theorem big_serial_length : (mergeSerial bigCookie).length = 5000 := by
  have hjar : cookieJarPairs bigCookie = [("a", ⟨List.replicate 4998 'v'⟩)] := by
    rw [cookieJarPairs, bigCookie, List.foldl_cons, List.foldl_nil,
      big_parsePairs]
    rfl
  have hser : mergeSerial bigCookie =
      "a" ++ "=" ++ (⟨List.replicate 4998 'v'⟩ : String) := by
    rw [mergeSerial, hjar]
    rfl
  rw [hser]
  show (("a" ++ "=" ++ (⟨List.replicate 4998 'v'⟩ : String)).data).length = 5000
  rw [show ("a" ++ "=" ++ (⟨List.replicate 4998 'v'⟩ : String)).data =
    'a' :: '=' :: List.replicate 4998 'v' from rfl,
    List.length_cons, List.length_cons, List.length_replicate]

/-- Claim C6. Whenever the serialized cookie jar exceeds the 4096 cap, the
output of `mergeCookies` is its plain character-level truncation (not
pair-aware) of length exactly 4096; any serialization at or under the cap
is returned unmodified; the concrete 5000-character jar truncates to
exactly 4096. (JS measures `.length` in UTF-16 code units, the model in
characters; these agree on cookie data, which is ASCII.) -/
theorem claim_c6 :
    (∀ css, ((mergeSerial css).length > 4096 →
        mergeCookies css 4096 = strTake (mergeSerial css) 4096 ∧
        (mergeCookies css 4096).length = 4096) ∧
      ((mergeSerial css).length ≤ 4096 →
        mergeCookies css 4096 = mergeSerial css)) ∧
    (mergeSerial bigCookie).length = 5000 ∧
    (mergeCookies bigCookie 4096).length = 4096 := by
  have huniv : ∀ css, ((mergeSerial css).length > 4096 →
      mergeCookies css 4096 = strTake (mergeSerial css) 4096 ∧
      (mergeCookies css 4096).length = 4096) ∧
      ((mergeSerial css).length ≤ 4096 →
        mergeCookies css 4096 = mergeSerial css) := by
    intro css
    constructor
    · intro h
      have he : mergeCookies css 4096 = strTake (mergeSerial css) 4096 := by
        simp only [mergeCookies]
        rw [if_pos h]
      refine ⟨he, ?_⟩
      rw [he, strTake_length]
      omega
    · intro h
      simp only [mergeCookies]
      rw [if_neg (by omega)]
  refine ⟨huniv, big_serial_length, ?_⟩
  exact ((huniv bigCookie).1 (by rw [big_serial_length]; omega)).2

/-- Closed instance of `claim_c6` at the 5000-character jar. -/
theorem claim_c6_witness :
    mergeCookies bigCookie 4096 = strTake (mergeSerial bigCookie) 4096 :=
  ((claim_c6.1 bigCookie).1 (by rw [big_serial_length]; omega)).1

/-! ## Claim C2 -/

theorem claimParseSegAmd_eq (part : String) :
    claimParseSegAmd part =
      (match splitFirstEq (strTrim part) with
        | none => none
        | some nv =>
          if strTrim nv.1 = "" then none
          else if isTracking (strTrim nv.1) then none
          else some (strTrim nv.1, strTrim nv.2)) := rfl

theorem splitFirstEq_empty : splitFirstEq "" = none := rfl

theorem parseSeg_eq_amd (part : String) : parseSeg part = claimParseSegAmd part := by
  rw [parseSeg_eq, claimParseSegAmd_eq]
  by_cases h : strTrim part = ""
  · rw [if_pos h, h]
    rfl
  · rw [if_neg h]

theorem map_if_eq_self {m : List (String × String)} {k : String} (v : String)
    (h : ∀ q ∈ m, q.1 ≠ k) :
    m.map (fun q => if q.1 = k then (q.1, v) else q) = m := by
  induction m with
  | nil => rfl
  | cons p rest ih =>
    rw [List.map_cons, if_neg (h p (List.mem_cons_self p rest)),
      ih (fun q hq => h q (List.mem_cons_of_mem p hq))]

theorem mem_keys_hset {a : String} {m : List (String × String)} {k v : String}
    (ha : a ∈ (hset m k v).map (fun p => p.1)) :
    a ∈ m.map (fun p => p.1) ∨ a = k := by
  rcases List.mem_map.mp ha with ⟨q, hq, he⟩
  rcases mem_hset hq with h | h
  · exact Or.inl (he ▸ List.mem_map_of_mem _ h)
  · right
    rw [← he, h]

theorem nodup_keys_hset {m : List (String × String)} (k v : String)
    (h : (m.map (fun p => p.1)).Nodup) :
    ((hset m k v).map (fun p => p.1)).Nodup := by
  induction m with
  | nil => simp [hset]
  | cons p rest ih =>
    rw [List.map_cons, List.nodup_cons] at h
    by_cases hp : p.1 = k
    · rw [show hset (p :: rest) k v = (k, v) :: rest from by
        simp only [hset, if_pos hp]]
      simp only [List.map_cons, List.nodup_cons]
      exact ⟨by rw [← hp]; exact h.1, h.2⟩
    · rw [show hset (p :: rest) k v = p :: hset rest k v from by
        simp only [hset, if_neg hp]]
      simp only [List.map_cons, List.nodup_cons]
      refine ⟨?_, ih h.2⟩
      intro hmem
      rcases mem_keys_hset hmem with hh | hh
      · exact h.1 hh
      · exact hp hh

theorem hset_eq_specInsert {m : List (String × String)} (k v : String)
    (h : (m.map (fun p => p.1)).Nodup) : hset m k v = specInsert m k v := by
  induction m with
  | nil => rfl
  | cons p rest ih =>
    rw [List.map_cons, List.nodup_cons] at h
    by_cases hp : p.1 = k
    · have hrest : ∀ q ∈ rest, q.1 ≠ k := by
        intro q hq he
        exact h.1 (by rw [hp, ← he]; exact List.mem_map_of_mem (fun p => p.1) hq)
      have hmem : k ∈ (p :: rest).map (fun p => p.1) := by
        simp only [List.map_cons]
        rw [← hp]
        exact List.mem_cons_self _ _
      rw [show hset (p :: rest) k v = (k, v) :: rest from by
        simp only [hset, if_pos hp]]
      unfold specInsert
      rw [if_pos hmem]
      simp only [List.map_cons]
      rw [if_pos hp, hp, map_if_eq_self v hrest]
    · have hkeys : (k ∈ (p :: rest).map (fun q => q.1)) ↔
          k ∈ rest.map (fun q => q.1) := by
        simp only [List.map_cons, List.mem_cons]
        constructor
        · intro hk
          rcases hk with hk | hk
          · exact absurd hk.symm hp
          · exact hk
        · exact fun hk => Or.inr hk
      rw [show hset (p :: rest) k v = p :: hset rest k v from by
        simp only [hset, if_neg hp]]
      rw [ih h.2]
      unfold specInsert
      by_cases hc : k ∈ rest.map (fun q => q.1)
      · rw [if_pos hc, if_pos (hkeys.mpr hc)]
        simp only [List.map_cons]
        rw [if_neg hp]
      · rw [if_neg hc, if_neg (fun hk => hc (hkeys.mp hk))]
        rfl

theorem foldl_hset_eq_specInsert (pairs : List (String × String)) :
    ∀ m, ((m.map (fun p => p.1)).Nodup) →
    pairs.foldl (fun m p => hset m p.1 p.2) m =
      pairs.foldl (fun m p => specInsert m p.1 p.2) m := by
  induction pairs with
  | nil =>
    intro m _
    rfl
  | cons q rest ih =>
    intro m hm
    rw [List.foldl_cons, List.foldl_cons, ← hset_eq_specInsert q.1 q.2 hm]
    exact ih (hset m q.1 q.2) (nodup_keys_hset q.1 q.2 hm)

theorem nodup_keys_foldl_hset (pairs : List (String × String)) :
    ∀ m, ((m.map (fun p => p.1)).Nodup) →
    ((pairs.foldl (fun m p => hset m p.1 p.2) m).map (fun p => p.1)).Nodup := by
  induction pairs with
  | nil =>
    intro m hm
    exact hm
  | cons q rest ih =>
    intro m hm
    exact ih (hset m q.1 q.2) (nodup_keys_hset q.1 q.2 hm)

theorem foldl_flatten {α β γ : Type} (f : α → List β) (g : γ → β → γ) :
    ∀ (css : List α) (l0 : List β) (m : γ),
    (css.foldl (fun acc s => acc ++ f s) l0).foldl g m =
      css.foldl (fun m s => (f s).foldl g m) (l0.foldl g m) := by
  intro css
  induction css with
  | nil =>
    intro l0 m
    rfl
  | cons s rest ih =>
    intro l0 m
    rw [List.foldl_cons, List.foldl_cons, ih (l0 ++ f s) m, List.foldl_append]

theorem cookieJarPairs_eq_claim (css : List String) :
    cookieJarPairs css = jarOfClaim claimParseSegAmd css := by
  unfold jarOfClaim
  rw [foldl_flatten (fun s => (strSplitChar s ';').filterMap claimParseSegAmd)
    (fun m p => specInsert m p.1 p.2) css [] []]
  unfold cookieJarPairs
  have key : ∀ (cs : List String) (m : List (String × String)),
      ((m.map (fun p => p.1)).Nodup) →
      cs.foldl (fun m s => (parsePairs s).foldl (fun m p => mapSet m p.1 p.2) m) m =
      cs.foldl (fun m s => ((strSplitChar s ';').filterMap claimParseSegAmd).foldl
        (fun m p => specInsert m p.1 p.2) m) m := by
    intro cs
    induction cs with
    | nil =>
      intro m _
      rfl
    | cons s rest ih =>
      intro m hm
      rw [List.foldl_cons, List.foldl_cons]
      have hp : parsePairs s = (strSplitChar s ';').filterMap claimParseSegAmd := by
        unfold parsePairs
        rw [show parseSeg = claimParseSegAmd from funext parseSeg_eq_amd]
      have heq := foldl_hset_eq_specInsert
        ((strSplitChar s ';').filterMap claimParseSegAmd) m hm
      have hnd := nodup_keys_foldl_hset
        ((strSplitChar s ';').filterMap claimParseSegAmd) m hm
      rw [heq] at hnd
      rw [hp, heq]
      exact ih _ hnd
  exact key css [] (by simp)

/-- Claim C2 (amended). For every input sequence, `mergeCookies` computes
exactly the claim's described algorithm — split on `;`, split segments at
the first `=` with whitespace trimmed, discard segments without `=`,
discard tracking-prefixed names, later occurrence wins with
first-insertion order preserved, serialize as `name=value` joined by
`"; "` — *amended* by one extra discard rule the claim omits: segments
whose trimmed name is empty are also dropped (and the result is then
subject to the byte cap of claim C6). The concrete merge of
`["a=1; _ga=x", "a=2"]` is exactly `a=2`. -/
theorem claim_c2_amended :
    (∀ css maxLen, mergeCookies css maxLen = capAt maxLen (mergeCookiesAmd css)) ∧
    mergeCookies ["a=1; _ga=x", "a=2"] 4096 = "a=2" := by
  constructor
  · intro css maxLen
    have h : mergeSerial css = mergeCookiesAmd css := by
      unfold mergeSerial mergeCookiesAmd
      rw [cookieJarPairs_eq_claim]
    simp only [mergeCookies, capAt, h]
  · decide

/-- Claim C2 counterexample: on `["=x"]` the algorithm as described by the
claim keeps the pair with empty name and serializes `=x`, but the
implementation discards it and returns the empty string. -/
theorem claim_c2_counterexample :
    mergeCookies ["=x"] 4096 ≠ mergeCookiesClaim ["=x"] ∧
    mergeCookies ["=x"] 4096 = "" ∧
    mergeCookiesClaim ["=x"] = "=x" := by decide
